import Mathlib

/-!
Shallow embedding of `bagaar` (`src/main.go`): a Hypixel bazaar price
cache.  A background loop (`updateLoop`) fetches a product-identifier
list and per-product prices, committing each (buy, sell) pair into the
shared map `priceMap`; HTTP handlers (`priceHandler`, `buyPriceHandler`,
`sellPriceHandler`, `csvHandler`) read that map and format prices with
`fmt.Sprintf("%.2f", _)`.

Conventions of the embedding:
* Go `float64` prices are modelled as `ℚ` (all JSON decimal literals are
  rationals; the claims only involve exactly representable values).
* `fmt.Sprintf("%.2f", _)` is modelled by `formatTwoDecimals`
  (round half to even at two decimal places, which is Go's behaviour).
* `map[string]*ProductPrice` is modelled as an association list with
  unique keys; `priceMap[k] = v` is `insertTable`, `priceMap[k]` is
  `lookupTable`.
* Network I/O is modelled by an oracle value (`FetchOutcome`) describing
  what the upstream interaction produced; `updatePrice` consumes it and
  returns the Go function's `(error, state)` effect.
* Because every write to the map happens inside `priceLock.Lock()` /
  `Unlock()` with no intermediate state, and every read inside
  `RLock()`, executions are modelled as sequences of atomic operations
  (`Op`) applied to the table.
-/

/-- `type ProductPrice struct { Buy, Sell float64 }`. -/
structure ProductPrice where
  Buy : ℚ
  Sell : ℚ
deriving DecidableEq, Repr

/-- `quick_status` payload of the detail endpoint:
`{ "buyPrice": number, "sellPrice": number }`. -/
structure QuickStatus where
  buyPrice : ℚ
  sellPrice : ℚ
deriving DecidableEq, Repr

/-- `type ProductResponse struct { Success bool; Info struct { Recap ... } }`. -/
structure ProductResponse where
  success : Bool
  recap : QuickStatus
deriving DecidableEq, Repr

/-- Outcome of the HTTP GET + decode performed by `updatePrice`:
either a transport error, a non-200 status code, a body that fails
`json.Unmarshal`, or a decoded `ProductResponse`. -/
inductive FetchOutcome where
  | netErr
  | badStatus (code : ℕ)
  | badJson
  | parsed (resp : ProductResponse)
deriving DecidableEq, Repr

/-- `priceMap : map[string]*ProductPrice`, as an association list. -/
def Table := List (String × ProductPrice)
deriving DecidableEq

instance : Membership (String × ProductPrice) Table :=
  inferInstanceAs (Membership _ (List _))

/-- Go map read `priceMap[k]`. -/
def lookupTable : Table → String → Option ProductPrice
  | [], _ => none
  | (k', v) :: t, k => if k' = k then some v else lookupTable t k

/-- Go map write `priceMap[k] = v`: overwrite in place, else add. -/
def insertTable : Table → String → ProductPrice → Table
  | [], k, v => [(k, v)]
  | (k', v') :: t, k, v =>
      if k' = k then (k, v) :: t else (k', v') :: insertTable t k v

/-- The set of keys currently cached. -/
def tableKeys (t : Table) : List String := t.map Prod.fst

/-- `func updatePrice(key, productId string) error`, given the oracle for
the network interaction.  Returns the Go `(error, post-state of priceMap)`
pair.  Every early `return err` leaves the map untouched; only the final
success path commits `&ProductPrice{Buy: recap.Buy, Sell: recap.Sell}`
under the write lock. -/
def updatePrice (productId : String) (outcome : FetchOutcome) (t : Table) :
    Option String × Table :=
  match outcome with
  | .netErr => (some "Get: network error", t)
  | .badStatus code =>
      (some ("api responded with non 200 status code: " ++ toString code), t)
  | .badJson => (some "invalid character in JSON payload", t)
  | .parsed info =>
      if !info.success then (some "api responded with bad status", t)
      else (none, insertTable t productId ⟨info.recap.buyPrice, info.recap.sellPrice⟩)

/-! ### `fmt.Sprintf("%.2f", x)` -/

/-- ASCII digit for `n < 10`. -/
def digitChar (n : ℕ) : Char := Char.ofNat (48 + n)

/-- Decimal digit string of a natural number, on explicit fuel (any
fuel above the digit count yields the digits, most significant first). -/
def natDigitsAux : ℕ → ℕ → List Char
  | 0, _ => []
  | fuel + 1, n =>
      if n < 10 then [digitChar n]
      else natDigitsAux fuel (n / 10) ++ [digitChar (n % 10)]

/-- Decimal digit string of a natural number (most significant first). -/
def natDigits (n : ℕ) : List Char :=
  natDigitsAux (n + 1) n

/-- Round to the nearest integer, ties to even (IEEE / Go `%.2f` rule). -/
def roundHalfEven (q : ℚ) : ℤ :=
  let f := ⌊q⌋
  if q - f < 1 / 2 then f
  else if 1 / 2 < q - f then f + 1
  else if f % 2 = 0 then f else f + 1

/-- Model of Go's `fmt.Sprintf("%.2f", x)`: sign, integer part, a point,
and exactly two fractional digits of the value rounded at two decimal
places. -/
def formatTwoDecimals (q : ℚ) : String :=
  let n := roundHalfEven (q * 100)
  let a := n.natAbs
  (if q < 0 then "-" else "") ++ String.mk (natDigits (a / 100)) ++ "." ++
    String.mk [digitChar (a / 10 % 10), digitChar (a % 10)]

/-- The characters after the last `'.'` of a string (its fractional
part, when the string renders a decimal number). -/
def decimalsPart (s : String) : List Char :=
  (s.data.reverse.takeWhile (fun c => c != '.')).reverse

/-! ### HTTP handlers -/

/-- An HTTP response: status code and plain-text body. -/
structure HttpResponse where
  status : ℕ
  body : String
deriving DecidableEq, Repr

/-- `strings.TrimRight(path, "/")` on the character list. -/
def trimSlashes (l : List Char) : List Char :=
  (l.reverse.dropWhile (fun c => c == '/')).reverse

/-- `strings.Split(s, "/")` on the character list: the `/`-separated
segments, with empty segments preserved (`strings.Split("", "/")` is
`[""]`, so the result is never empty). -/
def splitOnSlash : List Char → List (List Char)
  | [] => [[]]
  | c :: cs =>
      if c = '/' then [] :: splitOnSlash cs
      else
        match splitOnSlash cs with
        | [] => [[c]]
        | l :: ls => (c :: l) :: ls

/-- The product identifier `priceHandler` extracts:
`parts[len(parts)-1]` of `strings.Split(strings.TrimRight(path, "/"), "/")`. -/
def extractId (path : String) : String :=
  String.mk (((splitOnSlash (trimSlashes path.data)).getLast?).getD [])

/-- Body of `priceHandler` after the path has been trimmed:
the bad-request guard `len(parts) < 1`, then the cache lookup under
`RLock`, then the wrapped `productHandler`. -/
def priceHandlerTrimmed (f : ProductPrice → HttpResponse) (t : Table)
    (trimmed : List Char) : HttpResponse :=
  let parts := splitOnSlash trimmed
  if parts.length < 1 then ⟨400, "invalid product ID"⟩
  else
    match lookupTable t (String.mk ((parts.getLast?).getD [])) with
    | none => ⟨404, "invalid product ID or price not in cache"⟩
    | some pp => f pp

/-- `func priceHandler(f productHandler) http.HandlerFunc`. -/
def priceHandler (f : ProductPrice → HttpResponse) (t : Table)
    (path : String) : HttpResponse :=
  priceHandlerTrimmed f t (trimSlashes path.data)

/-- `func buyPriceHandler`: writes 200 and `%.2f` of the **Sell** field. -/
def buyPriceHandler (pp : ProductPrice) : HttpResponse :=
  ⟨200, formatTwoDecimals pp.Sell⟩

/-- `func sellPriceHandler`: writes 200 and `%.2f` of the **Buy** field. -/
def sellPriceHandler (pp : ProductPrice) : HttpResponse :=
  ⟨200, formatTwoDecimals pp.Buy⟩

/-- One CSV record: `fmt.Sprintf("%s,%.2f,%.2f\n", id, pp.Sell, pp.Buy)`. -/
def csvLine (e : String × ProductPrice) : String :=
  e.1 ++ "," ++ formatTwoDecimals e.2.Sell ++ "," ++ formatTwoDecimals e.2.Buy ++ "\n"

/-- The body `csvHandler` writes: one record per entry, in table order
(a Go map's iteration order is unspecified; the table's order stands in
for it). -/
def csvBody : Table → String
  | [] => ""
  | e :: t => csvLine e ++ csvBody t

/-- `func csvHandler`: 200, then every record under the read lock. -/
def csvHandler (t : Table) : HttpResponse :=
  ⟨200, csvBody t⟩

/-! ### The refresh loop -/

/-- One iteration of the outer loop of `updateLoop`, at loop counter `i`.
The local `var products []string` is declared inside the loop body, so it
is nil (empty) unless this iteration runs the `i == 0` branch.  `fetch`
is the oracle for `fetchProducts` (`none` = it returned an error).
Returns the identifier list the inner pass iterates, and the counter
after `i = (i + 1) % 1000`. -/
def loopIter (i : ℤ) (fetch : Option (List String)) :
    List String × ℤ :=
  if i = 0 then
    match fetch with
    | some l => (l, (i + 1) % 1000)
    | none => ([], ((i - 1) + 1) % 1000)
  else ([], (i + 1) % 1000)

/-- Run successive outer-loop iterations from counter `i`, one oracle
value per iteration; collect the identifier list each pass iterates. -/
def loopPasses : ℤ → List (Option (List String)) → List (List String)
  | _, [] => []
  | i, f :: fs =>
      let r := loopIter i f
      r.1 :: loopPasses r.2 fs

/-- Inner-pass index update of `updateLoop`: the body does `p -= 1` when
`updatePrice` errors, and the loop post-statement does `p++`. -/
def nextIndex (p : ℤ) (errored : Bool) : ℤ :=
  (if errored then p - 1 else p) + 1

/-- The identifier the inner pass fetches at index `p`: `products[p]`. -/
def attemptedId (products : List String) (p : ℤ) : Option String :=
  products.get? p.toNat

/-! ### Atomic-operation traces

Every mutation of `priceMap` is the single assignment in `updatePrice`,
performed while `priceLock` is held exclusively; every handler read holds
the shared lock for its whole critical section.  Executions are therefore
modelled as sequences of atomic operations on the table. -/

/-- The operations touching `priceMap`: one per `updatePrice` call
(with its network outcome) and one per handler request. -/
inductive Op where
  | update (id : String) (outcome : FetchOutcome)
  | getBuy (path : String)
  | getSell (path : String)
  | getCsv
deriving DecidableEq

/-- Effect of one operation on the table: only `updatePrice` writes;
the three handlers only read. -/
def applyOp (t : Table) : Op → Table
  | .update id o => (updatePrice id o t).2
  | .getBuy _ => t
  | .getSell _ => t
  | .getCsv => t

/-- Table after a whole trace of operations. -/
def applyTrace (t : Table) (tr : List Op) : Table :=
  tr.foldl applyOp t

/-- Split a character stream into its lines: a line is a maximal
newline-free run; a final newline closes the last line. -/
def splitLines : List Char → List (List Char)
  | [] => []
  | c :: cs =>
      if c = '\n' then [] :: splitLines cs
      else
        match splitLines cs with
        | [] => [[c]]
        | l :: ls => (c :: l) :: ls

/-- The character content of one CSV record, without its newline:
`identifier,sell,buy`. -/
def csvLineData (e : String × ProductPrice) : List Char :=
  e.1.data ++ ',' :: ((formatTwoDecimals e.2.Sell).data ++
    ',' :: (formatTwoDecimals e.2.Buy).data)

/-! ### Helper lemmas: the table -/

theorem lookupTable_insertTable_self (t : Table) (k : String) (v : ProductPrice) :
    lookupTable (insertTable t k v) k = some v := by
  induction t with
  | nil => simp [insertTable, lookupTable]
  | cons e t ih =>
    obtain ⟨k', v'⟩ := e
    by_cases h : k' = k
    · simp [insertTable, lookupTable, h]
    · simp [insertTable, lookupTable, h, ih]

theorem lookupTable_insertTable_ne (t : Table) (k k' : String) (v : ProductPrice)
    (h : k' ≠ k) : lookupTable (insertTable t k v) k' = lookupTable t k' := by
  induction t with
  | nil => simp [insertTable, lookupTable, Ne.symm h]
  | cons e t ih =>
    obtain ⟨k₀, v₀⟩ := e
    by_cases h0 : k₀ = k
    · subst h0
      simp [insertTable, lookupTable, Ne.symm h]
    · simp only [insertTable, if_neg h0, lookupTable]
      by_cases h1 : k₀ = k'
      · simp [h1]
      · simp [h1, ih]

theorem mem_tableKeys_insertTable (t : Table) (k k' : String) (v : ProductPrice)
    (h : k' ∈ tableKeys t) : k' ∈ tableKeys (insertTable t k v) := by
  induction t with
  | nil => simp [tableKeys] at h
  | cons e t ih =>
    obtain ⟨k₀, v₀⟩ := e
    by_cases h0 : k₀ = k
    · simp [tableKeys, insertTable, h0] at h ⊢
      tauto
    · simp [tableKeys, insertTable, h0] at h ⊢
      rcases h with h | h
      · exact Or.inl h
      · exact Or.inr (by simpa [tableKeys] using ih (by simpa [tableKeys] using h))

theorem tableKeys_updatePrice (t : Table) (id k : String) (o : FetchOutcome)
    (h : k ∈ tableKeys t) : k ∈ tableKeys (updatePrice id o t).2 := by
  cases o with
  | netErr => exact h
  | badStatus code => exact h
  | badJson => exact h
  | parsed info =>
    by_cases hs : info.success
    · simpa [updatePrice, hs] using mem_tableKeys_insertTable t id k _ h
    · simp only [updatePrice]
      rw [if_pos (by simp [hs])]
      exact h

/-! ### Helper lemmas: path handling -/

theorem splitOnSlash_ne_nil (l : List Char) : splitOnSlash l ≠ [] := by
  cases l with
  | nil => simp [splitOnSlash]
  | cons c cs =>
    by_cases h : c = '/'
    · simp [splitOnSlash, h]
    · simp only [splitOnSlash, if_neg h]
      cases splitOnSlash cs <;> simp

theorem splitOnSlash_pos (l : List Char) : 0 < (splitOnSlash l).length := by
  have := splitOnSlash_ne_nil l
  cases h : splitOnSlash l with
  | nil => exact absurd h this
  | cons x xs => simp

/-- Unfolding of `splitOnSlash` on a non-separator head. -/
theorem splitOnSlash_cons_ne (c : Char) (l x : List Char)
    (xs : List (List Char)) (hc : c ≠ '/') (h : splitOnSlash l = x :: xs) :
    splitOnSlash (c :: l) = (c :: x) :: xs := by
  simp only [splitOnSlash, if_neg hc]
  rw [h]

/-- A segment with no separator splits into itself alone. -/
theorem splitOnSlash_no_slash (b : List Char) (hb : '/' ∉ b) :
    splitOnSlash b = [b] := by
  induction b with
  | nil => simp [splitOnSlash]
  | cons c cs ih =>
    have hc : c ≠ '/' := by
      intro h
      exact hb (by simp [h])
    have hcs : splitOnSlash cs = [cs] := ih (fun h => hb (by simp [h]))
    simp [splitOnSlash, hc, hcs]

/-- Splitting `pre ++ '/' :: b` where `b` has no slash: the result has at
least two segments and its last segment is exactly `b`. -/
theorem splitOnSlash_last_aux (pre b : List Char) (hb : '/' ∉ b) :
    ∃ x xs, splitOnSlash (pre ++ '/' :: b) = x :: xs ∧ xs ≠ [] ∧
      (x :: xs).getLast? = some b := by
  induction pre with
  | nil =>
    refine ⟨[], [b], ?_, by simp, by simp⟩
    simp [splitOnSlash, splitOnSlash_no_slash b hb]
  | cons c pre ih =>
    obtain ⟨x, xs, hsp, hxs, hlast⟩ := ih
    by_cases hc : c = '/'
    · refine ⟨[], x :: xs, ?_, by simp, ?_⟩
      · simp [hc, splitOnSlash, hsp]
      · rw [List.getLast?_cons_cons]
        exact hlast
    · obtain ⟨y, ys, rfl⟩ := List.exists_cons_of_ne_nil hxs
      refine ⟨c :: x, y :: ys, ?_, by simp, ?_⟩
      · rw [List.cons_append]
        exact splitOnSlash_cons_ne c _ x (y :: ys) hc hsp
      · rw [List.getLast?_cons_cons] at hlast ⊢
        exact hlast

theorem dropWhile_slash_replicate (n : ℕ) (l : List Char) :
    List.dropWhile (fun c => c == '/') (List.replicate n '/' ++ l) =
      List.dropWhile (fun c => c == '/') l := by
  induction n with
  | zero => simp
  | succ n ih => simp [List.replicate_succ, List.dropWhile_cons, ih]

/-- `TrimRight` erases any block of trailing slashes. -/
theorem trimSlashes_append_replicate (l : List Char) (n : ℕ) :
    trimSlashes (l ++ List.replicate n '/') = trimSlashes l := by
  unfold trimSlashes
  rw [List.reverse_append, List.reverse_replicate, dropWhile_slash_replicate]

/-- `TrimRight` keeps a string whose last character is not a slash. -/
theorem trimSlashes_concat_ne (l : List Char) (c : Char) (hc : c ≠ '/') :
    trimSlashes (l ++ [c]) = l ++ [c] := by
  unfold trimSlashes
  rw [List.reverse_append]
  simp [List.dropWhile_cons, hc]

/-! ### Helper lemmas: number formatting -/

theorem digitChar_isDigit : ∀ n < 10, (digitChar n).isDigit = true := by decide

theorem natDigitsAux_isDigit (fuel : ℕ) :
    ∀ n, ∀ c ∈ natDigitsAux fuel n, c.isDigit = true := by
  induction fuel with
  | zero => simp [natDigitsAux]
  | succ fuel ih =>
    intro n c hc
    rw [natDigitsAux] at hc
    by_cases h : n < 10
    · rw [if_pos h, List.mem_singleton] at hc
      exact hc ▸ digitChar_isDigit n h
    · rw [if_neg h, List.mem_append] at hc
      rcases hc with hc | hc
      · exact ih (n / 10) c hc
      · rcases List.mem_singleton.mp hc with rfl
        exact digitChar_isDigit (n % 10) (Nat.mod_lt n (by omega))

theorem natDigits_isDigit (n : ℕ) : ∀ c ∈ natDigits n, c.isDigit = true :=
  natDigitsAux_isDigit (n + 1) n

theorem isDigit_ne_dot (c : Char) (h : c.isDigit = true) : c ≠ '.' := by
  rintro rfl
  exact absurd h (by decide)

theorem isDigit_ne_newline (c : Char) (h : c.isDigit = true) : c ≠ '\n' := by
  rintro rfl
  exact absurd h (by decide)

/-- Character-level shape of `formatTwoDecimals`: an optional sign, the
integer-part digits, a point, and two fractional digit characters. -/
theorem formatTwoDecimals_data (q : ℚ) :
    (formatTwoDecimals q).data =
      (if q < 0 then ['-'] else []) ++
        natDigits ((roundHalfEven (q * 100)).natAbs / 100) ++
        '.' :: [digitChar ((roundHalfEven (q * 100)).natAbs / 10 % 10),
                digitChar ((roundHalfEven (q * 100)).natAbs % 10)] := by
  unfold formatTwoDecimals
  simp only [String.data_append]
  by_cases h : q < 0 <;> simp [h, String.mk]

/-- `%.2f` always renders exactly two decimal digits after the point. -/
theorem decimalsPart_formatTwoDecimals (q : ℚ) :
    ∃ d1 d2, decimalsPart (formatTwoDecimals q) = [d1, d2] ∧
      d1.isDigit = true ∧ d2.isDigit = true := by
  refine ⟨digitChar ((roundHalfEven (q * 100)).natAbs / 10 % 10),
          digitChar ((roundHalfEven (q * 100)).natAbs % 10), ?_,
          digitChar_isDigit _ (Nat.mod_lt _ (by omega)),
          digitChar_isDigit _ (Nat.mod_lt _ (by omega))⟩
  have hd1 : (digitChar ((roundHalfEven (q * 100)).natAbs / 10 % 10)) ≠ '.' :=
    isDigit_ne_dot _ (digitChar_isDigit _ (Nat.mod_lt _ (by omega)))
  have hd2 : (digitChar ((roundHalfEven (q * 100)).natAbs % 10)) ≠ '.' :=
    isDigit_ne_dot _ (digitChar_isDigit _ (Nat.mod_lt _ (by omega)))
  unfold decimalsPart
  rw [formatTwoDecimals_data]
  simp [List.takeWhile_cons, hd1, hd2]

/-! ### Helper lemmas: lines -/

theorem newline_not_mem_formatTwoDecimals (q : ℚ) :
    '\n' ∉ (formatTwoDecimals q).data := by
  rw [formatTwoDecimals_data]
  intro hmem
  simp only [List.mem_append, List.mem_cons, List.mem_singleton,
    List.not_mem_nil, or_false] at hmem
  rcases hmem with (h | h) | (h | h | h)
  · by_cases hq : q < 0 <;> simp [hq] at h
  · exact isDigit_ne_newline '\n' (natDigits_isDigit _ _ h) rfl
  · exact absurd h (by decide)
  · exact isDigit_ne_newline '\n'
      (h ▸ digitChar_isDigit _ (Nat.mod_lt _ (by omega))) rfl
  · exact isDigit_ne_newline '\n'
      (h ▸ digitChar_isDigit _ (Nat.mod_lt _ (by omega))) rfl

theorem splitLines_cons_ne (c : Char) (l x : List Char)
    (xs : List (List Char)) (hc : c ≠ '\n') (h : splitLines l = x :: xs) :
    splitLines (c :: l) = (c :: x) :: xs := by
  simp only [splitLines, if_neg hc]
  rw [h]

theorem splitLines_line_append (x rest : List Char) (hx : '\n' ∉ x) :
    splitLines (x ++ '\n' :: rest) = x :: splitLines rest := by
  induction x with
  | nil => simp [splitLines]
  | cons c cs ih =>
    have hc : c ≠ '\n' := fun h => hx (by simp [h])
    have h2 := ih (fun h => hx (by simp [h]))
    rw [List.cons_append]
    exact splitLines_cons_ne c _ cs _ hc h2

theorem newline_not_mem_csvLineData (e : String × ProductPrice)
    (h : '\n' ∉ e.1.data) : '\n' ∉ csvLineData e := by
  intro hmem
  unfold csvLineData at hmem
  simp only [List.mem_append, List.mem_cons] at hmem
  rcases hmem with h0 | h0 | h0 | h0 | h0
  · exact h h0
  · exact absurd h0 (by decide)
  · exact newline_not_mem_formatTwoDecimals _ h0
  · exact absurd h0 (by decide)
  · exact newline_not_mem_formatTwoDecimals _ h0

theorem csvBody_cons_data (e : String × ProductPrice) (t : Table) :
    (csvBody (e :: t)).data = csvLineData e ++ '\n' :: (csvBody t).data := by
  show (csvLine e ++ csvBody t).data = _
  rw [String.data_append]
  unfold csvLine csvLineData
  simp [String.data_append]

theorem splitLines_csvBody (t : Table) (h : ∀ e ∈ t, '\n' ∉ e.1.data) :
    splitLines (csvBody t).data = t.map csvLineData := by
  induction t with
  | nil => simp [csvBody, splitLines]
  | cons e t ih =>
    rw [csvBody_cons_data,
      splitLines_line_append _ _
        (newline_not_mem_csvLineData e (h e (List.mem_cons_self e t))),
      ih (fun e' he' => h e' (List.mem_cons_of_mem _ he'))]
    simp

theorem count_newline_csvBody (t : Table) (h : ∀ e ∈ t, '\n' ∉ e.1.data) :
    (csvBody t).data.count '\n' = t.length := by
  induction t with
  | nil => simp [csvBody]
  | cons e t ih =>
    rw [csvBody_cons_data, List.count_append]
    rw [List.count_eq_zero.mpr
      (newline_not_mem_csvLineData e (h e (List.mem_cons_self e t)))]
    simp only [List.count_cons, List.length_cons,
      ih (fun e' he' => h e' (List.mem_cons_of_mem _ he'))]
    simp

/-! ### Helper lemmas: the price handler on a single-segment identifier -/

theorem data_ne_nil_of_ne_empty (id : String) (h : id ≠ "") : id.data ≠ [] := by
  intro hd
  apply h
  cases id
  simp only at hd
  rw [hd]

theorem mk_data_eq (id : String) : String.mk id.data = id := by
  cases id
  rfl

/-- On a path of the form `pre ++ "/" ++ id` where `id` is a nonempty
slash-free segment, `priceHandler` looks up exactly `id` in the cache:
404 when absent, the wrapped handler's response when present. -/
theorem priceHandler_single_segment (f : ProductPrice → HttpResponse)
    (t : Table) (pre : List Char) (id : String) (path : String)
    (hne : id ≠ "") (hslash : '/' ∉ id.data)
    (hpath : path.data = pre ++ '/' :: id.data) :
    priceHandler f t path =
      match lookupTable t id with
      | none => ⟨404, "invalid product ID or price not in cache"⟩
      | some pp => f pp := by
  have hdata : id.data ≠ [] := data_ne_nil_of_ne_empty id hne
  obtain ⟨init, c, hid⟩ : ∃ l' c, id.data = l' ++ [c] := by
    rcases List.eq_nil_or_concat id.data with h0 | ⟨L, b, h0⟩
    · exact absurd h0 hdata
    · exact ⟨L, b, by rw [h0, List.concat_eq_append]⟩
  have hc : c ≠ '/' := by
    intro h0
    exact hslash (by rw [hid, h0]; simp)
  have htrim : trimSlashes path.data = path.data := by
    have hre : pre ++ '/' :: (init ++ [c]) = (pre ++ '/' :: init) ++ [c] := by
      simp
    rw [hpath, hid, hre]
    exact trimSlashes_concat_ne _ c hc
  obtain ⟨x, xs, hsp, hxs, hlast⟩ := splitOnSlash_last_aux pre id.data hslash
  unfold priceHandler priceHandlerTrimmed
  rw [htrim, hpath, hsp]
  rw [if_neg (by simp)]
  rw [hlast]
  simp only [Option.getD_some, mk_data_eq]

theorem roundHalfEven_natCast (n : ℕ) : roundHalfEven (n : ℚ) = n := by
  unfold roundHalfEven
  norm_num

theorem empty_str_append (s : String) : "" ++ s = s := by
  cases s
  rfl

/-- Evaluation form of `%.2f` for a nonnegative value that is an exact
multiple of a hundredth: `q = n / 100` renders as the digits of
`n / 100`, a point, and the two low digits of `n`. -/
theorem formatTwoDecimals_scaled (q : ℚ) (n : ℕ) (hq : ¬q < 0)
    (h : q * 100 = n) :
    formatTwoDecimals q =
      String.mk (natDigits (n / 100)) ++ "." ++
        String.mk [digitChar (n / 10 % 10), digitChar (n % 10)] := by
  unfold formatTwoDecimals
  rw [h, roundHalfEven_natCast, if_neg hq]
  simp only [Int.natAbs_ofNat, empty_str_append]

/-- C1: for a cached identifier, the buy endpoint answers 200 with the
cached pair's **sell**-side value in `%.2f` form and the sell endpoint
answers the **buy**-side value likewise; both bodies carry exactly two
decimal digits after the point. -/
theorem buy_sell_endpoints_serve_cached_pair (t : Table) (id : String)
    (pp : ProductPrice) (hne : id ≠ "") (hslash : '/' ∉ id.data)
    (hlook : lookupTable t id = some pp) :
    priceHandler buyPriceHandler t ("/buy/" ++ id) =
      ⟨200, formatTwoDecimals pp.Sell⟩ ∧
    priceHandler sellPriceHandler t ("/sell/" ++ id) =
      ⟨200, formatTwoDecimals pp.Buy⟩ ∧
    (∃ d1 d2, decimalsPart (formatTwoDecimals pp.Sell) = [d1, d2] ∧
      d1.isDigit = true ∧ d2.isDigit = true) ∧
    (∃ d1 d2, decimalsPart (formatTwoDecimals pp.Buy) = [d1, d2] ∧
      d1.isDigit = true ∧ d2.isDigit = true) := by
  refine ⟨?_, ?_, decimalsPart_formatTwoDecimals pp.Sell,
    decimalsPart_formatTwoDecimals pp.Buy⟩
  · rw [priceHandler_single_segment buyPriceHandler t ['/', 'b', 'u', 'y']
      id ("/buy/" ++ id) hne hslash (by rw [String.data_append]; rfl), hlook]
    rfl
  · rw [priceHandler_single_segment sellPriceHandler t ['/', 's', 'e', 'l', 'l']
      id ("/sell/" ++ id) hne hslash (by rw [String.data_append]; rfl), hlook]
    rfl

/-- Witness for C1 at the spec's end-to-end example: after caching
`buyPrice = 12.5`, `sellPrice = 11.25` for `ENCHANTED_COAL`, the buy
endpoint answers `"11.25"` and the sell endpoint `"12.50"`. -/
theorem buy_sell_endpoints_serve_cached_pair_witness :
    priceHandler buyPriceHandler [("ENCHANTED_COAL", ⟨12.5, 11.25⟩)]
      ("/buy/" ++ "ENCHANTED_COAL") = ⟨200, "11.25"⟩ ∧
    priceHandler sellPriceHandler [("ENCHANTED_COAL", ⟨12.5, 11.25⟩)]
      ("/sell/" ++ "ENCHANTED_COAL") = ⟨200, "12.50"⟩ := by
  have h := buy_sell_endpoints_serve_cached_pair
    [("ENCHANTED_COAL", ⟨12.5, 11.25⟩)] "ENCHANTED_COAL" ⟨12.5, 11.25⟩
    (by decide) (by decide) (by simp [lookupTable])
  refine ⟨?_, ?_⟩
  · rw [h.1, show (⟨12.5, 11.25⟩ : ProductPrice).Sell = (11.25 : ℚ) from rfl,
      formatTwoDecimals_scaled (11.25 : ℚ) 1125 (by norm_num) (by norm_num)]
    decide
  · rw [h.2.1, show (⟨12.5, 11.25⟩ : ProductPrice).Buy = (12.5 : ℚ) from rfl,
      formatTwoDecimals_scaled (12.5 : ℚ) 1250 (by norm_num) (by norm_num)]
    decide

/-- C9: for an identifier absent from the cache, both price endpoints
answer 404 with the explanatory body. -/
theorem absent_identifier_not_found (t : Table) (id : String)
    (hne : id ≠ "") (hslash : '/' ∉ id.data)
    (hlook : lookupTable t id = none) :
    priceHandler buyPriceHandler t ("/buy/" ++ id) =
      ⟨404, "invalid product ID or price not in cache"⟩ ∧
    priceHandler sellPriceHandler t ("/sell/" ++ id) =
      ⟨404, "invalid product ID or price not in cache"⟩ := by
  refine ⟨?_, ?_⟩
  · rw [priceHandler_single_segment buyPriceHandler t ['/', 'b', 'u', 'y']
      id ("/buy/" ++ id) hne hslash (by rw [String.data_append]; rfl), hlook]
  · rw [priceHandler_single_segment sellPriceHandler t ['/', 's', 'e', 'l', 'l']
      id ("/sell/" ++ id) hne hslash (by rw [String.data_append]; rfl), hlook]

/-- Witness for C9: with an empty cache, `GET /buy/ENCHANTED_COAL` and
`GET /sell/ENCHANTED_COAL` are 404. -/
theorem absent_identifier_not_found_witness :
    priceHandler buyPriceHandler [] ("/buy/" ++ "ENCHANTED_COAL") =
      ⟨404, "invalid product ID or price not in cache"⟩ ∧
    priceHandler sellPriceHandler [] ("/sell/" ++ "ENCHANTED_COAL") =
      ⟨404, "invalid product ID or price not in cache"⟩ :=
  absent_identifier_not_found [] "ENCHANTED_COAL" (by decide) (by decide) rfl

/-- C3: contrary to the claim, a malformed buy/sell path never yields a
bad-request (400): the guard `len(parts) < 1` is unreachable because
`strings.Split` never returns an empty slice, so the handler only ever
answers 404 (explanatory body, no crash) or the wrapped handler's
response; in particular the trailing-slash-only path `/buy/` yields 404
on an empty cache. -/
theorem malformed_path_answers_not_found_never_bad_request :
    (∀ (f : ProductPrice → HttpResponse) (t : Table) (path : String),
      priceHandler f t path =
        ⟨404, "invalid product ID or price not in cache"⟩ ∨
      ∃ pp, priceHandler f t path = f pp) ∧
    priceHandler buyPriceHandler [] "/buy/" =
      ⟨404, "invalid product ID or price not in cache"⟩ ∧
    priceHandler buyPriceHandler [] "/buy///" =
      ⟨404, "invalid product ID or price not in cache"⟩ := by
  refine ⟨?_, by decide, by decide⟩
  intro f t path
  unfold priceHandler priceHandlerTrimmed
  rw [if_neg (by have := splitOnSlash_pos (trimSlashes path.data); omega)]
  cases lookupTable t
      (String.mk (((splitOnSlash (trimSlashes path.data)).getLast?).getD [])) with
  | none => left; rfl
  | some pp => right; exact ⟨pp, rfl⟩

/-- C10: appending any number of trailing slashes to a path changes
neither the identifier the handler extracts nor its whole response:
trailing slashes are stripped before the last segment is taken. -/
theorem trailing_slashes_are_normalized (f : ProductPrice → HttpResponse)
    (t : Table) (p : String) (n : ℕ) :
    priceHandler f t (p ++ String.mk (List.replicate n '/')) =
      priceHandler f t p ∧
    extractId (p ++ String.mk (List.replicate n '/')) = extractId p := by
  have hd : (p ++ String.mk (List.replicate n '/')).data =
      p.data ++ List.replicate n '/' := by
    rw [String.data_append]
  have htrim := trimSlashes_append_replicate p.data n
  constructor
  · unfold priceHandler
    rw [hd, htrim]
  · unfold extractId
    rw [hd, htrim]

/-- C4: whenever the per-product fetch fails (network error, non-200
status, malformed JSON, or `success:false`), `updatePrice` returns an
error and the price table is completely unchanged — every previously
cached entry is still present with its prior value. -/
theorem failed_fetch_leaves_table_unchanged (id : String) (o : FetchOutcome)
    (t : Table) (h : ∀ info, o = .parsed info → info.success = false) :
    ((updatePrice id o t).1).isSome = true ∧
    (updatePrice id o t).2 = t ∧
    ∀ k, lookupTable (updatePrice id o t).2 k = lookupTable t k := by
  cases o with
  | netErr => exact ⟨rfl, rfl, fun k => rfl⟩
  | badStatus code => exact ⟨rfl, rfl, fun k => rfl⟩
  | badJson => exact ⟨rfl, rfl, fun k => rfl⟩
  | parsed info =>
    have hs : info.success = false := h info rfl
    refine ⟨?_, ?_, ?_⟩ <;> simp [updatePrice, hs]

/-- Witness for C4: a failed fetch for `ENCHANTED_COAL` leaves its
previously cached pair in place. -/
theorem failed_fetch_leaves_table_unchanged_witness :
    ((updatePrice "ENCHANTED_COAL" FetchOutcome.netErr
        [("ENCHANTED_COAL", ⟨12.5, 11.25⟩)]).1).isSome = true ∧
    (updatePrice "ENCHANTED_COAL" FetchOutcome.netErr
        [("ENCHANTED_COAL", ⟨12.5, 11.25⟩)]).2 =
      [("ENCHANTED_COAL", ⟨12.5, 11.25⟩)] ∧
    ∀ k, lookupTable (updatePrice "ENCHANTED_COAL" FetchOutcome.netErr
        [("ENCHANTED_COAL", ⟨12.5, 11.25⟩)]).2 k =
      lookupTable [("ENCHANTED_COAL", ⟨12.5, 11.25⟩)] k :=
  failed_fetch_leaves_table_unchanged "ENCHANTED_COAL" .netErr
    [("ENCHANTED_COAL", ⟨12.5, 11.25⟩)] (by simp)

theorem mem_tableKeys_applyOp (t : Table) (k : String) (op : Op)
    (h : k ∈ tableKeys t) : k ∈ tableKeys (applyOp t op) := by
  cases op with
  | update id o => exact tableKeys_updatePrice t id k o h
  | getBuy path => exact h
  | getSell path => exact h
  | getCsv => exact h

/-- C5: no operation ever removes a cached identifier — across any
sequence of updates (successful or failed) and handler reads, every key
present before is present after — and a successful fetch writes the
whole new pair for its identifier. -/
theorem table_entries_never_removed (ops : List Op) (t : Table) (k : String)
    (hk : k ∈ tableKeys t) :
    k ∈ tableKeys (applyTrace t ops) ∧
    ∀ id info, info.success = true →
      lookupTable (applyOp t (.update id (.parsed info))) id =
        some ⟨info.recap.buyPrice, info.recap.sellPrice⟩ := by
  constructor
  · induction ops generalizing t with
    | nil => exact hk
    | cons op ops ih =>
      simp only [applyTrace, List.foldl_cons] at *
      exact ih (applyOp t op) (mem_tableKeys_applyOp t k op hk)
  · intro id info hs
    simp [applyOp, updatePrice, hs, lookupTable_insertTable_self]

/-- Witness for C5: after a successful overwrite and a CSV read, the
pre-existing key is still present and holds the new whole pair. -/
theorem table_entries_never_removed_witness :
    "ENCHANTED_COAL" ∈ tableKeys (applyTrace [("ENCHANTED_COAL", ⟨1, 2⟩)]
      [Op.update "ENCHANTED_COAL" (.parsed ⟨true, ⟨3, 4⟩⟩), Op.getCsv]) ∧
    ∀ id info, info.success = true →
      lookupTable (applyOp [("ENCHANTED_COAL", ⟨1, 2⟩)]
          (.update id (.parsed info))) id =
        some ⟨info.recap.buyPrice, info.recap.sellPrice⟩ :=
  table_entries_never_removed
    [Op.update "ENCHANTED_COAL" (.parsed ⟨true, ⟨3, 4⟩⟩), Op.getCsv]
    [("ENCHANTED_COAL", ⟨1, 2⟩)] "ENCHANTED_COAL" (by simp [tableKeys])

theorem reads_see_whole_pairs_aux (tr : List Op) (t : Table) (k : String)
    (pp : ProductPrice) (h : lookupTable (applyTrace t tr) k = some pp) :
    (∃ info, Op.update k (.parsed info) ∈ tr ∧ info.success = true ∧
      pp = ⟨info.recap.buyPrice, info.recap.sellPrice⟩) ∨
    lookupTable t k = some pp := by
  induction tr generalizing t with
  | nil => exact Or.inr h
  | cons op tr ih =>
    simp only [applyTrace, List.foldl_cons] at h
    rcases ih (applyOp t op) h with ⟨info, hmem, hs, hpp⟩ | hcase
    · exact Or.inl ⟨info, List.mem_cons_of_mem _ hmem, hs, hpp⟩
    · cases op with
      | getBuy path => exact Or.inr hcase
      | getSell path => exact Or.inr hcase
      | getCsv => exact Or.inr hcase
      | update id o =>
        cases o with
        | netErr => exact Or.inr hcase
        | badStatus code => exact Or.inr hcase
        | badJson => exact Or.inr hcase
        | parsed info =>
          cases hs : info.success with
          | false =>
            rw [show applyOp t (.update id (.parsed info)) = t by
              simp [applyOp, updatePrice, hs]] at hcase
            exact Or.inr hcase
          | true =>
            rw [show applyOp t (.update id (.parsed info)) =
                insertTable t id ⟨info.recap.buyPrice, info.recap.sellPrice⟩ by
              simp [applyOp, updatePrice, hs]] at hcase
            by_cases hk : k = id
            · subst hk
              rw [lookupTable_insertTable_self] at hcase
              exact Or.inl ⟨info, List.mem_cons_self _ _, hs,
                (Option.some.injEq _ _ ▸ hcase).symm⟩
            · rw [lookupTable_insertTable_ne t id k _ hk] at hcase
              exact Or.inr hcase

/-- C7: starting from the empty cache, any value a read observes for a
key is a whole (buy, sell) pair committed by one single successful
upstream response for that key — fields from two different writes are
never mixed. -/
theorem reads_see_whole_pairs (tr : List Op) (k : String) (pp : ProductPrice)
    (h : lookupTable (applyTrace [] tr) k = some pp) :
    ∃ info, Op.update k (.parsed info) ∈ tr ∧ info.success = true ∧
      pp = ⟨info.recap.buyPrice, info.recap.sellPrice⟩ := by
  rcases reads_see_whole_pairs_aux tr [] k pp h with hcase | hcase
  · exact hcase
  · exact absurd hcase (by simp [lookupTable])

/-- Witness for C7 on a two-write trace. -/
theorem reads_see_whole_pairs_witness :
    ∃ info, Op.update "ENCHANTED_COAL" (.parsed info) ∈
        [Op.update "ENCHANTED_COAL" (.parsed ⟨true, ⟨12.5, 11.25⟩⟩),
         Op.getBuy "/buy/ENCHANTED_COAL"] ∧
      info.success = true ∧
      (⟨12.5, 11.25⟩ : ProductPrice) =
        ⟨info.recap.buyPrice, info.recap.sellPrice⟩ :=
  reads_see_whole_pairs
    [Op.update "ENCHANTED_COAL" (.parsed ⟨true, ⟨12.5, 11.25⟩⟩),
     Op.getBuy "/buy/ENCHANTED_COAL"]
    "ENCHANTED_COAL" ⟨12.5, 11.25⟩ rfl

/-- C8: when the per-product fetch errors, the pass index does not
advance (`p -= 1` then `p++`), so the next attempted fetch targets the
same identifier; on success the index moves to the next one. -/
theorem failed_fetch_retries_in_place (products : List String) (p : ℤ) :
    nextIndex p true = p ∧
    attemptedId products (nextIndex p true) = attemptedId products p ∧
    nextIndex p false = p + 1 := by
  unfold nextIndex attemptedId
  norm_num

/-- C2: contrary to the claim, the identifier list is **not** re-used
after the first pass: `products` is redeclared inside the loop, so every
pass with loop counter `i ≠ 0` iterates an empty list, and the counter
wraps modulo 1000 so the list is re-fetched every 1000th pass, not only
on restart.  Concretely: after fetching `["ENCHANTED_COAL"]` on the
first pass, the second pass iterates `[]`. -/
theorem refresh_loop_drops_product_list :
    loopPasses 0 [some ["ENCHANTED_COAL"], some ["ENCHANTED_COAL"]] =
      [["ENCHANTED_COAL"], []] ∧
    (∀ (i : ℤ) (fetch : Option (List String)), i ≠ 0 →
      (loopIter i fetch).1 = []) ∧
    (loopIter 0 (some ["ENCHANTED_COAL"])).1 = ["ENCHANTED_COAL"] := by
  refine ⟨by decide, ?_, rfl⟩
  intro i fetch hi
  simp [loopIter, hi]

/-- Witness for C2's universally quantified part: pass 5 iterates no
identifiers whatever was fetched before. -/
theorem refresh_loop_drops_product_list_witness :
    (loopIter 5 (some ["ENCHANTED_COAL"])).1 = [] :=
  refresh_loop_drops_product_list.2.1 5 (some ["ENCHANTED_COAL"]) (by decide)

/-- C6: the CSV dump is a 200 whose body splits into exactly one line
per cached entry — the entry's identifier, a comma, the sell-side value
in `%.2f` form, a comma, the buy-side value in `%.2f` form — each line
newline-terminated, the line count equal to the number of entries. -/
theorem csv_dump_one_line_per_entry (t : Table)
    (h : ∀ e ∈ t, '\n' ∉ e.1.data) :
    (csvHandler t).status = 200 ∧
    splitLines (csvHandler t).body.data = t.map csvLineData ∧
    (splitLines (csvHandler t).body.data).length = t.length ∧
    (csvHandler t).body.data.count '\n' = t.length := by
  refine ⟨rfl, splitLines_csvBody t h, ?_, count_newline_csvBody t h⟩
  rw [show (csvHandler t).body = csvBody t from rfl, splitLines_csvBody t h]
  simp

/-- Witness for C6 at the spec's end-to-end example table. -/
theorem csv_dump_one_line_per_entry_witness :
    (csvHandler [("ENCHANTED_COAL", ⟨12.5, 11.25⟩)]).status = 200 ∧
    splitLines (csvHandler [("ENCHANTED_COAL", ⟨12.5, 11.25⟩)]).body.data =
      [(("ENCHANTED_COAL", ⟨12.5, 11.25⟩) : String × ProductPrice)].map
        csvLineData ∧
    (splitLines
        (csvHandler [("ENCHANTED_COAL", ⟨12.5, 11.25⟩)]).body.data).length =
      [(("ENCHANTED_COAL", ⟨12.5, 11.25⟩) : String × ProductPrice)].length ∧
    (csvHandler [("ENCHANTED_COAL", ⟨12.5, 11.25⟩)]).body.data.count '\n' =
      [(("ENCHANTED_COAL", ⟨12.5, 11.25⟩) : String × ProductPrice)].length :=
  csv_dump_one_line_per_entry [("ENCHANTED_COAL", ⟨12.5, 11.25⟩)] (by decide)
